import Mathlib

/-!
Verification of the CPPLispReader tokenizer (`include/reader.hpp`) against its
specification.  The C++ source is shallowly embedded: the character stream is a
`List Char`, each reader consumes a prefix of it, C++ exceptions become an
explicit `Except LexError` channel, and C++ `int` arithmetic is `Int` with the
C/C++ truncated division and remainder (`Int.tdiv` / `Int.tmod`).  Parts of the
tokenizer that the repository only declares or tests (the dispatch of `read()`
beyond parentheses and strings, the `peek()` lookahead cache, the `EndOfInput`
guard, the numeric reader, the reserved-character set) are modelled from the
specification and marked as such in their doc comments.
-/

namespace lisp_reader

/-- Lexical error taxonomy (spec section 7).  The C++ drafts `throw` string
messages; each constructor names the throw site it stands for:
`malformedString` = "Missing closing double-quotes for string literal",
`missingStringStart` = "Missing double-quotes at start of string literal",
`missingCommentStart` = "Missing semicolon at start of comment",
`unmatchedPipe` = "Did not find matching vertical bar (|) in symbol name",
`danglingEscape` = "Cannot have unescaped backslash (\\) in a symbol name",
`illegalSymbolChar` = "Unescaped illegal character in symbol",
`allDotsSymbol` = "Too many dots in symbol".
`endOfInput` is modelled from the spec (section 7); `numericReaderAbsent` is a
stand-in for the numeric reader, which is absent from the reviewed sources. -/
inductive LexError where
  | endOfInput
  | malformedString
  | missingStringStart
  | missingCommentStart
  | unmatchedPipe
  | danglingEscape
  | illegalSymbolChar
  | allDotsSymbol
  | malformedFraction
  | numericReaderAbsent
deriving DecidableEq, Repr

/-- `enum class TokenType` from the source (the `END` sentinel, used only to
size the label array, is dropped). -/
inductive TokenType where
  | OPEN_PARENTHESIS
  | CLOSE_PARENTHESIS
  | SYMBOL
  | COMMENT
  | INT
  | DOUBLE
  | FLOAT
  | FRACTION
  | STRING
deriving DecidableEq, Repr

/-- `class Fraction` : a pair of C++ `int`s `_num`, `_den`, kept simplified by
`_simplify` on construction and on every mutation. -/
structure Fraction where
  num : Int
  den : Int
deriving DecidableEq, Repr

namespace Fraction

/-- `Fraction::_gcd` : the C++ Euclid loop
`while(b != 0) { int t = b; b = a % b; a = t; } return a;`
with C++ truncated remainder (`Int.tmod`). -/
def gcdImpl (a b : Int) : Int :=
  if b = 0 then a else gcdImpl b (a.tmod b)
termination_by b.natAbs
decreasing_by
  rename_i h
  have hb : b.natAbs ≠ 0 := by simpa [Int.natAbs_eq_zero] using h
  have habs : (a.tmod b).natAbs = a.natAbs % b.natAbs := by
    cases a <;> cases b <;> simp only [Int.tmod, Int.natAbs_neg] <;> rfl
  simpa [habs] using Nat.mod_lt a.natAbs (Nat.pos_of_ne_zero hb)

/-- `Fraction::_simplify` : `_num /= gcd; _den /= gcd;` with C++ truncated
division (`Int.tdiv`). -/
def simplify (f : Fraction) : Fraction :=
  let g := gcdImpl f.num f.den
  ⟨f.num.tdiv g, f.den.tdiv g⟩

/-- The constructor `Fraction(int num, int den)` : store then `_simplify()`. -/
def make (num den : Int) : Fraction :=
  simplify ⟨num, den⟩

/-- `Fraction::isInt` : `return _den == 1;`. -/
def isInt (f : Fraction) : Bool :=
  f.den == 1

/-- `Fraction::getNum`. -/
def getNum (f : Fraction) : Int := f.num

/-- `Fraction::getDen`. -/
def getDen (f : Fraction) : Int := f.den

/-- `Fraction::setNum` : `_num = num; _simplify();`. -/
def setNum (f : Fraction) (num : Int) : Fraction :=
  simplify ⟨num, f.den⟩

/-- `Fraction::setDen` : `_den = den; _simplify();`. -/
def setDen (f : Fraction) (den : Int) : Fraction :=
  simplify ⟨f.num, den⟩

/-- `Fraction::operator==` : componentwise comparison of `_num` and `_den`. -/
def eqOp (f g : Fraction) : Bool :=
  f.num == g.num && f.den == g.den

end Fraction

/-- `TokenValue` : the `std::variant` payload.  The `float` and `double`
alternatives are omitted: no claim concerns floating-point payloads, and
machine floating point is outside this embedding. -/
inductive TokenValue where
  | str (s : String)
  | int (n : Int)
  | frac (f : Fraction)
deriving DecidableEq, Repr

/-- `Token` : `std::pair<TokenType, std::optional<TokenValue>>`. -/
def Token := TokenType × Option TokenValue
deriving DecidableEq, Repr

/-- `Tokenizer::canRead` : `_is.peek(); return _is.good();` — true iff at
least one character remains in the source. -/
def canRead (l : List Char) : Bool :=
  !l.isEmpty

/-- Loop body of `_readStr` after the opening quote and one further extraction:
`while(c != '"' && !_is.eof()) { ret.push_back(c); _is >> c; }` followed by the
closing-quote check.  `c` is the character just extracted, `rest` the rest of
the stream, `acc` the reversed accumulator.  A failed extraction at end of
input leaves `c` unchanged, sets `eof`, and the final check throws. -/
def strBody (c : Char) (rest acc : List Char) : Except LexError (String × List Char) :=
  if c = '"' then .ok (acc.reverse.asString, rest)
  else
    match rest with
    | [] => .error .malformedString
    | d :: rest' => strBody d rest' (c :: acc)

/-- `Tokenizer::_readStr` : check the opening quote, then scan to the closing
quote.  When the stream ends right after the opening quote, the failed
extraction leaves `c` holding the opening `'"'`, the loop is skipped and the
closing-quote check passes, so a lone `"` yields the empty string. -/
def readStr : List Char → Except LexError (String × List Char)
  | [] => .error .missingStringStart
  | c :: rest =>
    if c = '"' then
      match rest with
      | [] => .ok ("", [])
      | d :: rest' => strBody d rest' []
    else .error .missingStringStart

/-- `std::isspace` in the default C locale, on the ASCII range. -/
def isCppSpace (c : Char) : Bool :=
  c = ' ' || c = '\t' || c = '\n' || c = '\x0b' || c = '\x0c' || c = '\r'

/-- The left trim in `_readCmt`:
`ret.erase(ret.begin(), std::find_if_not(... std::isspace ...))`. -/
def ltrim (l : List Char) : List Char :=
  l.dropWhile isCppSpace

/-- `_readCmt` after its leading-semicolon check: skip the run of `';'`
characters (`while(c == ';' & !_is.eof()) _is >> c;`), put the first
non-semicolon character back, `std::getline`, and left-trim.  When the run
reaches end of input, `putback` and `getline` fail and the comment text is
empty. -/
def cmtSkip : List Char → String × List Char
  | [] => ("", [])
  | c :: rest =>
    if c = ';' then cmtSkip rest
    else
      (((c :: rest).takeWhile (fun x => x != '\n')).dropWhile isCppSpace |>.asString,
        ((c :: rest).dropWhile (fun x => x != '\n')).tail)

/-- `Tokenizer::_readCmt` : error unless the first character is `';'`, then
`cmtSkip`. -/
def readCmt : List Char → Except LexError (String × List Char)
  | [] => .error .missingCommentStart
  | c :: rest =>
    if c = ';' then .ok (cmtSkip rest) else .error .missingCommentStart

/-- Modelled from the spec: `RESERVED_SYM_CHARS` is referenced by `_readSym`
but its definition is not in the reviewed sources; spec section 4.4 lists the
reserved characters as `( ) " ' ` (backtick, here `Char.ofNat 96`) `, : ; \ |`. -/
def RESERVED_SYM_CHARS : List Char :=
  ['(', ')', '"', '\'', Char.ofNat 96, ',', ':', ';', '\\', '|']

/-- Control position inside the `_readSym` loop: `normal` is the top of the
outer `while`, `escaped` is just after the `'\\'` case extracted its follow-up
character, `inPipe` is inside the inner `while(c != '|')` loop. -/
inductive SymMode where
  | normal
  | escaped
  | inPipe
deriving DecidableEq, Repr

/-- Function end of `_readSym`:
`if(dotCnt > 0 && dotCnt == ret.size()) throw "Too many dots in symbol"; return ret;`. -/
def symFinish (acc : List Char) (dotCnt : Nat) (rest : List Char) :
    Except LexError (String × List Char) :=
  if 0 < dotCnt ∧ dotCnt = acc.length then .error .allDotsSymbol
  else .ok (acc.reverse.asString, rest)

/-- The `_readSym` loop `while(_is.good() && c != ' ') { switch(c) ... }`,
transcribed as a state machine over the remaining input.  The head of the list
is the character just extracted; an empty list is a failed extraction (stream
no longer `good`).  Quirks of the C++ control flow preserved here: a `'|'`
extracted as the very last character of the stream leaves the unchanged `c`
equal to `'|'`, so the inner loop exits at once and the symbol ends without an
`unmatchedPipe` error; the delimiting space is consumed; escaped characters
and pipe-run characters bypass the dot counter and the reserved-character
check. -/
def symGo : SymMode → List Char → List Char → Nat → Except LexError (String × List Char)
  | .normal, [], acc, dotCnt => symFinish acc dotCnt []
  | .normal, c :: rest, acc, dotCnt =>
    if c = ' ' then symFinish acc dotCnt rest
    else if c = '.' then symGo .normal rest ('.' :: acc) (dotCnt + 1)
    else if c = '\\' then symGo .escaped rest acc dotCnt
    else if c = '|' then
      match rest with
      | [] => symFinish acc dotCnt []
      | _ :: _ => symGo .inPipe rest acc dotCnt
    else if RESERVED_SYM_CHARS.contains c then .error .illegalSymbolChar
    else symGo .normal rest (c :: acc) dotCnt
  | .escaped, [], _, _ => .error .danglingEscape
  | .escaped, d :: rest, acc, dotCnt => symGo .normal rest (d :: acc) dotCnt
  | .inPipe, [], _, _ => .error .unmatchedPipe
  | .inPipe, c :: rest, acc, dotCnt =>
    if c = '|' then symGo .normal rest acc dotCnt
    else symGo .inPipe rest (c :: acc) dotCnt

/-- `Tokenizer::_readSym` : run the loop from its entry point with empty
accumulator and `dotCnt = 0`. -/
def readSym (l : List Char) : Except LexError (String × List Char) :=
  symGo .normal l [] 0

/-- Modelled from the spec: the value-construction step for a fraction literal
(spec section 4.5) — "split at the single `/`, parse both sides as signed
integers, construct a `Fraction` (triggering GCD reduction); if the reduced
denominator is 1, re-tag the token as `Int` carrying the reduced numerator".
The numeric reader that produces `num` and `den` is absent from the reviewed
sources; the `Fraction` construction itself is the real source code. -/
def fractionToken (num den : Int) : Token :=
  let f := Fraction.make num den
  if f.isInt then (.INT, some (.int f.num)) else (.FRACTION, some (.frac f))

/-- `Tokenizer::read` : dispatch on the first character.  The `'('`, `')'` and
`'"'` branches are the source's `switch`; the rest is modelled from the spec:
the `EndOfInput` guard (spec sections 4.1 and 7; the draft in the sources
documents this case as undefined behavior instead), the `';'` row (comment
reader) and the anything-else row (symbol reader) of the dispatch table, and
the digit/`'+'`/`'-'` row, whose numeric reader is absent from the reviewed
sources and is left as the stand-in error `numericReaderAbsent` (no claim
concerns inputs beginning with a digit or a sign). -/
def read : List Char → Except LexError (Token × List Char)
  | [] => .error .endOfInput
  | c :: rest =>
    if c = '(' then .ok ((.OPEN_PARENTHESIS, none), rest)
    else if c = ')' then .ok ((.CLOSE_PARENTHESIS, none), rest)
    else if c = '"' then (readStr (c :: rest)).map fun p => ((.STRING, some (.str p.1)), p.2)
    else if c = ';' then (readCmt (c :: rest)).map fun p => ((.COMMENT, some (.str p.1)), p.2)
    else if c.isDigit = true ∨ c = '+' ∨ c = '-' then .error .numericReaderAbsent
    else (readSym (c :: rest)).map fun p => ((.SYMBOL, some (.str p.1)), p.2)

/-- Modelled from the spec: `peek()` "returns the next token without advancing
the logical read position" — the token `read` would produce, with the input
position unchanged. -/
def peek (input : List Char) : Except LexError Token :=
  (read input).map Prod.fst

/-- Modelled from the spec: the tokenizer's state for the cached `peek()` —
"an explicit optional cache field on the Tokenizer, populated lazily and
invalidated exactly once per `read()`".  `src` is the logical read position;
the cache holds the buffered token together with the stream position after it
(the underlying stream has already consumed the token's characters). -/
structure TokenizerState where
  src : List Char
  cache : Option (Token × List Char)
deriving DecidableEq, Repr

namespace TokenizerState

/-- Modelled from the spec: `peek()` — return the cached token if present,
otherwise run the real read-and-advance logic once and buffer the result. -/
def peekTok (s : TokenizerState) : Except LexError (Token × TokenizerState) :=
  match s.cache with
  | some (t, _) => .ok (t, s)
  | none => (read s.src).map fun p => (p.1, ⟨s.src, some p⟩)

/-- Modelled from the spec: `read()` — consume and invalidate the cache if
present, otherwise read and advance directly. -/
def readTok (s : TokenizerState) : Except LexError (Token × TokenizerState) :=
  match s.cache with
  | some (t, r) => .ok (t, ⟨r, none⟩)
  | none => (read s.src).map fun p => (p.1, ⟨p.2, none⟩)

end TokenizerState

/-! ### Properties of the C++ Euclid loop `Fraction::_gcd` -/

/-- The magnitude of the C-style truncated remainder is the `Nat` remainder of
the magnitudes. -/
theorem natAbs_tmod (a b : Int) : (a.tmod b).natAbs = a.natAbs % b.natAbs := by
  cases a <;> cases b <;> simp only [Int.tmod, Int.natAbs_neg] <;> rfl

namespace Fraction

theorem gcdImpl_zero (a : Int) : gcdImpl a 0 = a := by
  rw [gcdImpl]
  simp

theorem gcdImpl_step (a b : Int) (h : b ≠ 0) : gcdImpl a b = gcdImpl b (a.tmod b) := by
  rw [gcdImpl]
  simp [h]

theorem gcdImpl_dvd (a b : Int) : gcdImpl a b ∣ a ∧ gcdImpl a b ∣ b := by
  induction a, b using gcdImpl.induct with
  | case1 a =>
    rw [gcdImpl_zero]
    exact ⟨dvd_refl a, dvd_zero a⟩
  | case2 a b hb ih =>
    rw [gcdImpl_step a b hb]
    refine ⟨?_, ih.1⟩
    have h := dvd_add ih.2 (ih.1.mul_right (a.tdiv b))
    rwa [Int.tmod_add_tdiv] at h

theorem gcdImpl_natAbs (a b : Int) : (gcdImpl a b).natAbs = Int.gcd a b := by
  induction a, b using gcdImpl.induct with
  | case1 a =>
    rw [gcdImpl_zero]
    simp [Int.gcd]
  | case2 a b hb ih =>
    rw [gcdImpl_step a b hb, ih]
    show Int.gcd b (a.tmod b) = Int.gcd a b
    rw [Int.gcd, Int.gcd, natAbs_tmod, Nat.gcd_comm b.natAbs, ← Nat.gcd_rec,
      Nat.gcd_comm]

theorem gcdImpl_nonneg : ∀ {a b : Int}, 0 ≤ a → 0 ≤ b → 0 ≤ gcdImpl a b := by
  intro a b
  induction a, b using gcdImpl.induct with
  | case1 a =>
    intro ha _
    rwa [gcdImpl_zero]
  | case2 a b hb ih =>
    intro ha hb2
    rw [gcdImpl_step a b hb]
    exact ih hb2 (Int.tmod_nonneg b ha)

theorem gcdImpl_ne_zero (a b : Int) (hb : b ≠ 0) : gcdImpl a b ≠ 0 := by
  intro h
  have h2 : (gcdImpl a b).natAbs = 0 := by rw [h]; rfl
  rw [gcdImpl_natAbs] at h2
  exact hb (Int.natAbs_eq_zero.mp (Nat.eq_zero_of_gcd_eq_zero_right h2))

theorem gcdImpl_pos {a b : Int} (ha : 0 ≤ a) (hb : 0 < b) : 0 < gcdImpl a b :=
  lt_of_le_of_ne (gcdImpl_nonneg ha hb.le) (Ne.symm (gcdImpl_ne_zero a b hb.ne'))

end Fraction

/-- The C-style truncated remainder carries the sign of the dividend over the
`Nat` remainder of the magnitudes. -/
theorem tmod_eq_sign_mul (a b : Int) :
    a.tmod b = a.sign * (a.natAbs % b.natAbs : Nat) := by
  cases a with
  | ofNat m =>
    cases m with
    | zero => cases b <;> simp [Int.tmod, Int.sign]
    | succ k => cases b <;> exact (one_mul _).symm
  | negSucc m => cases b <;> exact (neg_one_mul _).symm

/-- The C-style truncated remainder is multiplicative:
`(k*a) % (k*b) = k * (a % b)` in C++ `int` arithmetic. -/
theorem tmod_mul_mul (k a b : Int) : (k * a).tmod (k * b) = k * a.tmod b := by
  rcases eq_or_ne k 0 with rfl | hk
  · simp
  · rw [tmod_eq_sign_mul, tmod_eq_sign_mul a b, Int.sign_mul, Int.natAbs_mul,
      Int.natAbs_mul, Nat.mul_mod_mul_left, Nat.cast_mul]
    conv_rhs => rw [← Int.sign_mul_natAbs k]
    ring

namespace Fraction

/-- The C++ Euclid loop scales: `_gcd(k*a, k*b) = k * _gcd(a, b)`. -/
theorem gcdImpl_mul_left (k a b : Int) : gcdImpl (k * a) (k * b) = k * gcdImpl a b := by
  induction a, b using gcdImpl.induct with
  | case1 a =>
    rw [mul_zero, gcdImpl_zero, gcdImpl_zero]
  | case2 a b hb ih =>
    rcases eq_or_ne k 0 with rfl | hk
    · simp [gcdImpl_zero]
    · rw [gcdImpl_step (k * a) (k * b) (mul_ne_zero hk hb), tmod_mul_mul, ih,
        gcdImpl_step a b hb]

/-- Core property of `_simplify`: dividing out `_gcd` leaves the exact
cofactors. -/
theorem simplify_eq_cofactors {a b e c : Int}
    (he : a = gcdImpl a b * e) (hc : b = gcdImpl a b * c)
    (hg : gcdImpl a b ≠ 0) :
    simplify ⟨a, b⟩ = ⟨e, c⟩ := by
  show (⟨a.tdiv (gcdImpl a b), b.tdiv (gcdImpl a b)⟩ : Fraction) = ⟨e, c⟩
  set g := gcdImpl a b with hgdef
  rw [he, hc, Int.mul_tdiv_cancel_left e hg, Int.mul_tdiv_cancel_left c hg]

/-- `_simplify` on a nonnegative numerator and positive denominator yields a
coprime pair with positive denominator. -/
theorem simplify_reduced {a b : Int} (ha : 0 ≤ a) (hb : 0 < b) :
    Int.gcd (simplify ⟨a, b⟩).num (simplify ⟨a, b⟩).den = 1 ∧
      0 < (simplify ⟨a, b⟩).den := by
  obtain ⟨e, he⟩ := (gcdImpl_dvd a b).1
  obtain ⟨c, hc⟩ := (gcdImpl_dvd a b).2
  have hg : 0 < gcdImpl a b := gcdImpl_pos ha hb
  have hgne : gcdImpl a b ≠ 0 := hg.ne'
  have habs : (gcdImpl a b).natAbs = Int.gcd a b := gcdImpl_natAbs a b
  rw [simplify_eq_cofactors he hc hgne]
  set g := gcdImpl a b with hgdef
  have hc_pos : 0 < c := by
    have hbc : 0 < g * c := hc ▸ hb
    rcases mul_pos_iff.mp hbc with ⟨_, h⟩ | ⟨h, _⟩
    · exact h
    · exact absurd hg (not_lt.mpr h.le)
  refine ⟨?_, hc_pos⟩
  show Int.gcd e c = 1
  have hmul : Int.gcd a b = g.natAbs * Int.gcd e c := by
    conv_lhs => rw [he, hc]
    exact Int.gcd_mul_left g e c
  have hpos : 0 < g.natAbs := Int.natAbs_pos.mpr hgne
  have hcancel : g.natAbs * 1 = g.natAbs * Int.gcd e c := by
    rw [mul_one]
    calc g.natAbs = Int.gcd a b := habs
      _ = g.natAbs * Int.gcd e c := hmul
  exact (Nat.eq_of_mul_eq_mul_left hpos hcancel).symm

/-- `_simplify` never turns a nonzero denominator into a zero one. -/
theorem simplify_den_ne_zero (a : Int) {b : Int} (hb : b ≠ 0) :
    (simplify ⟨a, b⟩).den ≠ 0 := by
  obtain ⟨e, he⟩ := (gcdImpl_dvd a b).1
  obtain ⟨c, hc⟩ := (gcdImpl_dvd a b).2
  have hgne : gcdImpl a b ≠ 0 := gcdImpl_ne_zero a b hb
  rw [simplify_eq_cofactors he hc hgne]
  show c ≠ 0
  intro h
  exact hb (by rw [hc, h, mul_zero])

end Fraction


/-! ### Concrete evaluations of the well-founded `_gcd` loop -/

namespace Fraction

theorem gcdImpl_4_2 : gcdImpl 4 2 = 2 := by
  rw [gcdImpl_step 4 2 (by decide), (by decide : (4:Int).tmod 2 = 0), gcdImpl_zero]

theorem make_4_2 : make 4 2 = ⟨2, 1⟩ := by
  show (⟨Int.tdiv 4 (gcdImpl 4 2), Int.tdiv 2 (gcdImpl 4 2)⟩ : Fraction) = ⟨2, 1⟩
  rw [gcdImpl_4_2]
  decide

theorem gcdImpl_neg_one_2 : gcdImpl (-1) 2 = -1 := by
  rw [gcdImpl_step (-1) 2 (by decide), (by decide : (-1:Int).tmod 2 = -1),
    gcdImpl_step 2 (-1) (by decide), (by decide : (2:Int).tmod (-1) = 0), gcdImpl_zero]

theorem make_neg_one_2 : make (-1) 2 = ⟨1, -2⟩ := by
  show (⟨Int.tdiv (-1) (gcdImpl (-1) 2), Int.tdiv 2 (gcdImpl (-1) 2)⟩ : Fraction) = ⟨1, -2⟩
  rw [gcdImpl_neg_one_2]
  decide

theorem make_1_0 : make 1 0 = ⟨1, 0⟩ := by
  show (⟨Int.tdiv 1 (gcdImpl 1 0), Int.tdiv 0 (gcdImpl 1 0)⟩ : Fraction) = ⟨1, 0⟩
  rw [gcdImpl_zero]
  decide

end Fraction

/-! ### Runs of the string reader -/

/-- Running the `_readStr` loop over quote-free text reaches the closing quote
and accumulates the text verbatim. -/
theorem strBody_run (mid : List Char) :
    ∀ (m : Char) (acc rest : List Char), m ≠ '"' → '"' ∉ mid →
      strBody m (mid ++ '"' :: rest) acc = .ok ((acc.reverse ++ m :: mid).asString, rest) := by
  induction mid with
  | nil =>
    intro m acc rest hm _
    rw [strBody.eq_def, if_neg hm]
    show strBody '"' rest (m :: acc) = _
    rw [strBody.eq_def, if_pos rfl]
    simp
  | cons x xs ih =>
    intro m acc rest hm hmid
    rw [List.cons_append, strBody.eq_def, if_neg hm]
    show strBody x (xs ++ '"' :: rest) (m :: acc) = _
    have hx : x ≠ '"' := fun h => hmid (h ▸ List.mem_cons_self x xs)
    have hxs : '"' ∉ xs := fun h => hmid (List.mem_cons_of_mem x h)
    rw [ih x (m :: acc) rest hx hxs]
    simp

/-- `_readStr` on a quote-delimited input returns exactly the enclosed text. -/
theorem readStr_ok (mid rest : List Char) (h : '"' ∉ mid) :
    readStr ('"' :: (mid ++ '"' :: rest)) = .ok (mid.asString, rest) := by
  cases mid with
  | nil =>
    show readStr ('"' :: '"' :: rest) = _
    rw [readStr, if_pos rfl]
    show strBody '"' rest [] = _
    rw [strBody.eq_def, if_pos rfl]
    rfl
  | cons m ms =>
    rw [List.cons_append, readStr, if_pos rfl]
    have hm : m ≠ '"' := fun hq => h (hq ▸ List.mem_cons_self m ms)
    have hms : '"' ∉ ms := fun hq => h (List.mem_cons_of_mem m hq)
    rw [strBody_run ms m [] rest hm hms]
    rfl

/-! ### Runs of the comment reader -/

/-- The semicolon-skipping loop of `_readCmt` consumes the whole run. -/
theorem cmtSkip_semis (k : Nat) (body : List Char) :
    cmtSkip (List.replicate k ';' ++ body) = cmtSkip body := by
  induction k with
  | zero => rfl
  | succ n ih =>
    rw [List.replicate_succ, List.cons_append]
    show cmtSkip (';' :: (List.replicate n ';' ++ body)) = _
    rw [cmtSkip, if_pos rfl]
    exact ih

/-- After the semicolon run, `_readCmt` takes the rest of the physical line and
left-trims it. -/
theorem cmtSkip_getline (c : Char) (rest : List Char) (h : c ≠ ';') :
    cmtSkip (c :: rest) =
      (((c :: rest).takeWhile (fun x => x != '\n')).dropWhile isCppSpace |>.asString,
        ((c :: rest).dropWhile (fun x => x != '\n')).tail) := by
  rw [cmtSkip, if_neg h]

/-- Splitting off the first physical line: the part before the newline. -/
theorem takeWhile_line (line r : List Char) (h : '\n' ∉ line) :
    (line ++ '\n' :: r).takeWhile (fun x => x != '\n') = line := by
  induction line with
  | nil => simp
  | cons x xs ih =>
    have hx : x ≠ '\n' := fun hq => h (hq ▸ List.mem_cons_self x xs)
    have hxs : '\n' ∉ xs := fun hq => h (List.mem_cons_of_mem x hq)
    rw [List.cons_append, List.takeWhile_cons_of_pos (by simpa using hx), ih hxs]

/-- Splitting off the first physical line: the newline and what follows. -/
theorem dropWhile_line (line r : List Char) (h : '\n' ∉ line) :
    (line ++ '\n' :: r).dropWhile (fun x => x != '\n') = '\n' :: r := by
  induction line with
  | nil => simp
  | cons x xs ih =>
    have hx : x ≠ '\n' := fun hq => h (hq ▸ List.mem_cons_self x xs)
    have hxs : '\n' ∉ xs := fun hq => h (List.mem_cons_of_mem x hq)
    rw [List.cons_append, List.dropWhile_cons_of_pos (by simpa using hx), ih hxs]

/-- A line without a newline is taken whole. -/
theorem takeWhile_noline (line : List Char) (h : '\n' ∉ line) :
    line.takeWhile (fun x => x != '\n') = line := by
  induction line with
  | nil => rfl
  | cons x xs ih =>
    have hx : x ≠ '\n' := fun hq => h (hq ▸ List.mem_cons_self x xs)
    have hxs : '\n' ∉ xs := fun hq => h (List.mem_cons_of_mem x hq)
    rw [List.takeWhile_cons_of_pos (by simpa using hx), ih hxs]

/-- A line without a newline leaves nothing behind. -/
theorem dropWhile_noline (line : List Char) (h : '\n' ∉ line) :
    line.dropWhile (fun x => x != '\n') = [] := by
  induction line with
  | nil => rfl
  | cons x xs ih =>
    have hx : x ≠ '\n' := fun hq => h (hq ▸ List.mem_cons_self x xs)
    have hxs : '\n' ∉ xs := fun hq => h (List.mem_cons_of_mem x hq)
    rw [List.dropWhile_cons_of_pos (by simpa using hx), ih hxs]

/-! ### Runs of the symbol reader -/

/-- The end-of-function dot check of `_readSym`, when it fires. -/
theorem symFinish_allDots (acc : List Char) (dot : Nat) (rest : List Char)
    (h1 : 0 < dot) (h2 : dot = acc.length) :
    symFinish acc dot rest = .error .allDotsSymbol := by
  unfold symFinish
  rw [if_pos ⟨h1, h2⟩]

/-- One step of the `_readSym` loop on a freshly extracted character. -/
theorem symGo_normal_cons (c : Char) (rest acc : List Char) (dot : Nat) :
    symGo .normal (c :: rest) acc dot =
      if c = ' ' then symFinish acc dot rest
      else if c = '.' then symGo .normal rest ('.' :: acc) (dot + 1)
      else if c = '\\' then symGo .escaped rest acc dot
      else if c = '|' then
        match rest with
        | [] => symFinish acc dot []
        | _ :: _ => symGo .inPipe rest acc dot
      else if RESERVED_SYM_CHARS.contains c then .error .illegalSymbolChar
      else symGo .normal rest (c :: acc) dot := by
  rw [symGo.eq_def]

/-- A run of unescaped dots feeds the dot counter and the accumulator in
lockstep. -/
theorem symGo_dots (n : Nat) :
    ∀ (tail acc : List Char) (dot : Nat),
      symGo .normal (List.replicate n '.' ++ tail) acc dot =
        symGo .normal tail (List.replicate n '.' ++ acc) (dot + n) := by
  induction n with
  | zero => intro tail acc dot; rfl
  | succ m ih =>
    intro tail acc dot
    rw [List.replicate_succ, List.cons_append]
    show symGo .normal ('.' :: (List.replicate m '.' ++ tail)) acc dot = _
    rw [symGo_normal_cons, if_neg (by decide), if_pos rfl, ih tail ('.' :: acc) (dot + 1)]
    rw [show List.replicate m '.' ++ '.' :: acc = List.replicate (m + 1) '.' ++ acc by
      rw [List.replicate_succ' m '.']; simp]
    rw [show dot + 1 + m = dot + (m + 1) by omega, List.replicate_succ]


/-! ### Claim theorems -/

/-- C1: in every tokenizer state in which `canRead()` is false (no character
remains in the source), `read()` and `peek()` fail with an `EndOfInput` error;
they do not return a token. -/
theorem read_peek_endOfInput (l : List Char) (h : canRead l = false) :
    read l = .error .endOfInput ∧ peek l = .error .endOfInput := by
  have hl : l = [] := by
    cases l with
    | nil => rfl
    | cons c t => simp [canRead] at h
  subst hl
  exact ⟨rfl, rfl⟩

/-- Witness for C1 at the empty source. -/
theorem read_peek_endOfInput_witness :
    canRead [] = false ∧
      (read [] = .error .endOfInput ∧ peek [] = .error .endOfInput) :=
  ⟨rfl, read_peek_endOfInput [] rfl⟩

/-- C2, counterexample: the constructor applied to numerator `-1` and nonzero
denominator `2` produces the value `(1, -2)`, whose denominator is negative —
the invariant `denominator > 0` fails. -/
theorem fraction_invariant_counterexample :
    Fraction.make (-1) 2 = ⟨1, -2⟩ ∧ ¬ 0 < (Fraction.make (-1) 2).den := by
  refine ⟨Fraction.make_neg_one_2, ?_⟩
  rw [Fraction.make_neg_one_2]
  decide

/-- C2, amended: every `Fraction` produced from a nonnegative numerator and a
positive denominator — by the constructor, and by `setNum` with a nonnegative
numerator or `setDen` with a positive denominator — satisfies
`gcd(|numerator|, denominator) = 1` and `denominator > 0`. -/
theorem fraction_reduced_invariant :
    (∀ n d : Int, 0 ≤ n → 0 < d →
        Int.gcd (Fraction.make n d).num (Fraction.make n d).den = 1 ∧
          0 < (Fraction.make n d).den) ∧
    (∀ (f : Fraction) (n : Int), 0 ≤ n → 0 < f.den →
        Int.gcd (f.setNum n).num (f.setNum n).den = 1 ∧ 0 < (f.setNum n).den) ∧
    (∀ (f : Fraction) (d : Int), 0 ≤ f.num → 0 < d →
        Int.gcd (f.setDen d).num (f.setDen d).den = 1 ∧ 0 < (f.setDen d).den) :=
  ⟨fun _ _ hn hd => Fraction.simplify_reduced hn hd,
   fun _ _ hn hd => Fraction.simplify_reduced hn hd,
   fun _ _ hn hd => Fraction.simplify_reduced hn hd⟩

/-- Witness for the amended C2 at `Fraction(4, 6)`. -/
theorem fraction_reduced_invariant_witness :
    0 ≤ (4 : Int) ∧ 0 < (6 : Int) ∧
      Int.gcd (Fraction.make 4 6).num (Fraction.make 4 6).den = 1 ∧
        0 < (Fraction.make 4 6).den :=
  ⟨by decide, by decide, fraction_reduced_invariant.1 4 6 (by decide) (by decide)⟩

/-- C3, counterexample: constructing `Fraction(1, 0)` is not reported as an
error — `_simplify` divides by `_gcd(1, 0) = 1` and the value `(1, 0)` with a
zero denominator is produced. -/
theorem zero_den_counterexample :
    Fraction.make 1 0 = ⟨1, 0⟩ ∧ (Fraction.make 1 0).den = 0 := by
  refine ⟨Fraction.make_1_0, ?_⟩
  rw [Fraction.make_1_0]

/-- C3, amended: constructing with a zero denominator is not rejected (see the
counterexample), but every `Fraction` constructed or mutated with a nonzero
denominator keeps a nonzero denominator. -/
theorem nonzero_den_preserved :
    (∀ n d : Int, d ≠ 0 → (Fraction.make n d).den ≠ 0) ∧
    (∀ (f : Fraction) (d : Int), d ≠ 0 → (f.setDen d).den ≠ 0) ∧
    (∀ (f : Fraction) (n : Int), f.den ≠ 0 → (f.setNum n).den ≠ 0) :=
  ⟨fun n _ hd => Fraction.simplify_den_ne_zero n hd,
   fun f _ hd => Fraction.simplify_den_ne_zero f.num hd,
   fun _ n hd => Fraction.simplify_den_ne_zero n hd⟩

/-- Witness for the amended C3 at `Fraction(5, 3)`. -/
theorem nonzero_den_preserved_witness :
    (3 : Int) ≠ 0 ∧ (Fraction.make 5 3).den ≠ 0 :=
  ⟨by decide, nonzero_den_preserved.1 5 3 (by decide)⟩

/-- C4: a fraction literal whose GCD-reduced denominator equals 1 is emitted
as an `Int` token carrying the reduced numerator (for example `4/2` yields
`Int 2`), and a `Fraction` token is never emitted with denominator 1. -/
theorem fraction_collapse_to_int :
    (∀ n d : Int, (Fraction.make n d).den = 1 →
        fractionToken n d =
          ((TokenType.INT, some (TokenValue.int (Fraction.make n d).num)) : Token)) ∧
    (∀ (n d : Int) (f : Fraction),
        fractionToken n d = ((TokenType.FRACTION, some (TokenValue.frac f)) : Token) →
          f.den ≠ 1) ∧
    fractionToken 4 2 = ((TokenType.INT, some (TokenValue.int 2)) : Token) := by
  refine ⟨?_, ?_, ?_⟩
  · intro n d h
    have hInt : (Fraction.make n d).isInt = true := by simp [Fraction.isInt, h]
    simp only [fractionToken]
    rw [if_pos hInt]
  · intro n d f h
    simp only [fractionToken] at h
    by_cases hi : (Fraction.make n d).isInt
    · rw [if_pos hi] at h
      injection h with h1 h2
      exact TokenType.noConfusion h1
    · rw [if_neg hi] at h
      injection h with h1 h2
      injection h2 with h3
      injection h3 with h4
      rw [← h4]
      simpa [Fraction.isInt] using hi
  · simp only [fractionToken, Fraction.make_4_2]
    decide

/-- Witness for C4 at the literal `4/2`. -/
theorem fraction_collapse_to_int_witness :
    (Fraction.make 4 2).den = 1 ∧
      fractionToken 4 2 =
        ((TokenType.INT, some (TokenValue.int (Fraction.make 4 2).num)) : Token) :=
  ⟨by rw [Fraction.make_4_2], fraction_collapse_to_int.1 4 2 (by rw [Fraction.make_4_2])⟩

/-- C10: for 32-bit values `n`, `d`, `k` with `d ≠ 0`, `k ≠ 0` and the
products `k*n`, `k*d` not overflowing, `Fraction(k*n, k*d) == Fraction(n, d)`
under the componentwise `operator==`: construction canonicalizes equivalent
ratios. -/
theorem fraction_eq_scaling :
    ∀ n d k : Int,
      -(2 ^ 31) ≤ n → n < 2 ^ 31 → -(2 ^ 31) ≤ d → d < 2 ^ 31 →
      -(2 ^ 31) ≤ k → k < 2 ^ 31 →
      -(2 ^ 31) ≤ k * n → k * n < 2 ^ 31 → -(2 ^ 31) ≤ k * d → k * d < 2 ^ 31 →
      d ≠ 0 → k ≠ 0 →
      Fraction.eqOp (Fraction.make (k * n) (k * d)) (Fraction.make n d) = true := by
  intro n d k _ _ _ _ _ _ _ _ _ _ hd hk
  obtain ⟨e, he⟩ := (Fraction.gcdImpl_dvd n d).1
  obtain ⟨c, hc⟩ := (Fraction.gcdImpl_dvd n d).2
  have hg : Fraction.gcdImpl n d ≠ 0 := Fraction.gcdImpl_ne_zero n d hd
  have h1 : Fraction.make n d = ⟨e, c⟩ := Fraction.simplify_eq_cofactors he hc hg
  have h2 : Fraction.make (k * n) (k * d) = ⟨e, c⟩ := by
    apply Fraction.simplify_eq_cofactors
    · rw [Fraction.gcdImpl_mul_left k n d, mul_assoc, ← he]
    · rw [Fraction.gcdImpl_mul_left k n d, mul_assoc, ← hc]
    · rw [Fraction.gcdImpl_mul_left k n d]
      exact mul_ne_zero hk hg
  rw [h1, h2]
  simp [Fraction.eqOp]

/-- Witness for C10 at `n = 1`, `d = 2`, `k = 2`. -/
theorem fraction_eq_scaling_witness :
    (2 : Int) ≠ 0 ∧
      Fraction.eqOp (Fraction.make (2 * 1) (2 * 2)) (Fraction.make 1 2) = true :=
  ⟨by decide,
    fraction_eq_scaling 1 2 2 (by norm_num) (by norm_num) (by norm_num) (by norm_num)
      (by norm_num) (by norm_num) (by norm_num) (by norm_num) (by norm_num) (by norm_num)
      (by decide) (by decide)⟩


/-- C5: for every input beginning with a double quote and containing a closing
quote, `read()` consumes the opening quote and returns a `String` token whose
payload is exactly the characters between the two quotes, taken verbatim with
no escape processing and excluding both delimiters; two adjacent quotes yield
the empty payload. -/
theorem read_string_verbatim :
    (∀ (mid rest : List Char), '"' ∉ mid →
        read ('"' :: (mid ++ '"' :: rest)) =
          .ok (((TokenType.STRING, some (TokenValue.str mid.asString)) : Token), rest)) ∧
    read ['"', '"'] = .ok (((TokenType.STRING, some (TokenValue.str "")) : Token), []) := by
  constructor
  · intro mid rest h
    have hd : read ('"' :: (mid ++ '"' :: rest)) =
        (readStr ('"' :: (mid ++ '"' :: rest))).map
          (fun p => (((TokenType.STRING, some (TokenValue.str p.1)) : Token), p.2)) := rfl
    rw [hd, readStr_ok mid rest h]
    rfl
  · rfl

/-- Witness for C5 at the payload `Hello, World`. -/
theorem read_string_verbatim_witness :
    '"' ∉ "Hello, World".toList ∧
      read ('"' :: ("Hello, World".toList ++ '"' :: [])) =
        .ok (((TokenType.STRING, some (TokenValue.str "Hello, World")) : Token), []) :=
  ⟨by decide, read_string_verbatim.1 "Hello, World".toList [] (by decide)⟩

/-- C6: the comment reader consumes the whole run of consecutive `';'`
characters and the remainder of the physical line, and returns that remainder
left-trimmed of leading whitespace, with trailing whitespace and any further
`';'` characters kept verbatim; stated both for a line closed by a newline and
for a line reaching end of input. -/
theorem readCmt_spec :
    ∀ (k : Nat) (line rest' : List Char), '\n' ∉ line → line.head? ≠ some ';' →
      readCmt (List.replicate (k + 1) ';' ++ (line ++ '\n' :: rest')) =
          .ok ((ltrim line).asString, rest') ∧
        readCmt (List.replicate (k + 1) ';' ++ line) = .ok ((ltrim line).asString, []) := by
  intro k line rest' hnl hsemi
  have hunfold : ∀ body : List Char,
      readCmt (List.replicate (k + 1) ';' ++ body) =
        .ok (cmtSkip (List.replicate k ';' ++ body)) := by
    intro body
    rw [List.replicate_succ, List.cons_append]
    rfl
  constructor
  · rw [hunfold, cmtSkip_semis]
    cases line with
    | nil =>
      rw [List.nil_append, cmtSkip_getline '\n' rest' (by decide)]
      rfl
    | cons c cs =>
      have hc : c ≠ ';' := by simpa using hsemi
      rw [List.cons_append, cmtSkip_getline c (cs ++ '\n' :: rest') hc,
        ← List.cons_append, takeWhile_line (c :: cs) rest' hnl,
        dropWhile_line (c :: cs) rest' hnl]
      rfl
  · rw [hunfold, cmtSkip_semis]
    cases line with
    | nil => rfl
    | cons c cs =>
      have hc : c ≠ ';' := by simpa using hsemi
      rw [cmtSkip_getline c cs hc, takeWhile_noline (c :: cs) hnl,
        dropWhile_noline (c :: cs) hnl]
      rfl

/-- Witness for C6 at the repository's test input `;;; Test Comment ;;`. -/
theorem readCmt_spec_witness :
    '\n' ∉ " Test Comment ;;".toList ∧ " Test Comment ;;".toList.head? ≠ some ';' ∧
      readCmt (List.replicate 3 ';' ++ " Test Comment ;;".toList) =
        .ok ((ltrim " Test Comment ;;".toList).asString, []) :=
  ⟨by decide, by decide,
    (readCmt_spec 2 " Test Comment ;;".toList [] (by decide) (by decide)).2⟩

/-- C7, counterexample: the input `\.` accumulates the text `"."` — nonempty
and consisting entirely of `'.'` characters — yet `_readSym` returns it as a
symbol instead of rejecting with `AllDotsSymbol`, because the dot counter only
counts unescaped dots. -/
theorem allDots_counterexample :
    readSym ['\\', '.'] = .ok (".", []) ∧
      ".".toList ≠ [] ∧ ∀ ch ∈ ".".toList, ch = '.' :=
  ⟨rfl, by decide, by decide⟩

/-- C7, amended: a symbol whose characters are all unescaped `'.'` characters
(at least one) is rejected with `AllDotsSymbol`, whether delimited by a space
or by end of input; dots reaching the accumulator through an escape or a pipe
run do not count toward the check. -/
theorem allDots_unescaped :
    ∀ (n : Nat) (rest : List Char), 0 < n →
      readSym (List.replicate n '.' ++ ' ' :: rest) = .error .allDotsSymbol ∧
        readSym (List.replicate n '.') = .error .allDotsSymbol := by
  intro n rest hn
  constructor
  · show symGo .normal (List.replicate n '.' ++ ' ' :: rest) [] 0 = _
    rw [symGo_dots n (' ' :: rest) [] 0, List.append_nil, symGo_normal_cons, if_pos rfl]
    exact symFinish_allDots _ _ _ (by omega) (by simp)
  · show symGo .normal (List.replicate n '.') [] 0 = _
    rw [show List.replicate n '.' = List.replicate n '.' ++ [] by simp,
      symGo_dots n [] [] 0, List.append_nil]
    show symFinish (List.replicate n '.') (0 + n) [] = _
    exact symFinish_allDots _ _ _ (by omega) (by simp)

/-- Witness for the amended C7 at the symbol `...`. -/
theorem allDots_unescaped_witness :
    0 < 3 ∧ readSym (List.replicate 3 '.') = .error .allDotsSymbol :=
  ⟨by decide, (allDots_unescaped 3 [] (by decide)).2⟩

/-- C8: when the first unconsumed character is none of `'('`, `')'`, `'"'`,
`';'`, a digit, `'+'`, `'-'`, `read()` delegates to the symbol reader and wraps
its result as a `Symbol` token; in particular the input
`Hello |Hello World| World` yields exactly the three symbols `Hello`,
`Hello World` and `World`. -/
theorem read_symbol_dispatch :
    (∀ (c : Char) (rest : List Char),
        c ≠ '(' → c ≠ ')' → c ≠ '"' → c ≠ ';' → c.isDigit = false → c ≠ '+' → c ≠ '-' →
        read (c :: rest) =
          (readSym (c :: rest)).map
            (fun p => (((TokenType.SYMBOL, some (TokenValue.str p.1)) : Token), p.2))) ∧
    (read "Hello |Hello World| World".toList =
        .ok (((TokenType.SYMBOL, some (TokenValue.str "Hello")) : Token),
          "|Hello World| World".toList) ∧
      read "|Hello World| World".toList =
        .ok (((TokenType.SYMBOL, some (TokenValue.str "Hello World")) : Token),
          "World".toList) ∧
      read "World".toList =
        .ok (((TokenType.SYMBOL, some (TokenValue.str "World")) : Token), [])) := by
  constructor
  · intro c rest h1 h2 h3 h4 h5 h6 h7
    rw [read, if_neg h1, if_neg h2, if_neg h3, if_neg h4, if_neg (by simp [h5, h6, h7])]
  · exact ⟨rfl, rfl, rfl⟩

/-- Witness for C8 at the input `Hi`. -/
theorem read_symbol_dispatch_witness :
    ('H' ≠ '(' ∧ Char.isDigit 'H' = false) ∧
      read "Hi".toList =
        (readSym "Hi".toList).map
          (fun p => (((TokenType.SYMBOL, some (TokenValue.str p.1)) : Token), p.2)) :=
  ⟨⟨by decide, by decide⟩,
    read_symbol_dispatch.1 'H' "i".toList (by decide) (by decide) (by decide) (by decide)
      (by decide) (by decide) (by decide)⟩

/-- C9: with at least one token remaining (a successful `peek()`), `peek()`
returns the same token an immediately following `read()` returns, a second
`peek()` with no intervening `read()` returns the same token and state, and
`peek()` never advances the logical read position (`read()` after the `peek()`
behaves exactly as `read()` before it). -/
theorem peek_read_agree (s : TokenizerState) (t : Token) (s' : TokenizerState)
    (h : s.peekTok = .ok (t, s')) :
    s'.peekTok = .ok (t, s') ∧ s'.readTok = s.readTok ∧
      ∃ u, s.readTok = .ok (t, u) := by
  obtain ⟨src, cache⟩ := s
  cases cache with
  | some p =>
    obtain ⟨t0, r⟩ := p
    have h' : (.ok (t0, (⟨src, some (t0, r)⟩ : TokenizerState)) :
        Except LexError (Token × TokenizerState)) = .ok (t, s') := h
    injection h' with h1
    injection h1 with h2 h3
    subst h2
    subst h3
    exact ⟨rfl, rfl, ⟨⟨r, none⟩, rfl⟩⟩
  | none =>
    have h' : (read src).map
        (fun p => (p.1, (⟨src, some p⟩ : TokenizerState))) = .ok (t, s') := h
    cases hr : read src with
    | error e =>
      rw [hr] at h'
      simp only [Except.map] at h'
      exact Except.noConfusion h'
    | ok p =>
      obtain ⟨t0, r⟩ := p
      rw [hr] at h'
      simp only [Except.map] at h'
      injection h' with h1
      injection h1 with h2 h3
      subst h2
      subst h3
      have hread : TokenizerState.readTok ⟨src, none⟩ = .ok (t0, ⟨r, none⟩) := by
        show (read src).map (fun p => (p.1, (⟨p.2, none⟩ : TokenizerState))) = _
        rw [hr]
        rfl
      refine ⟨rfl, ?_, ⟨⟨r, none⟩, hread⟩⟩
      rw [hread]
      rfl

/-- Witness for C9 at the fresh tokenizer state over the input `(`. -/
theorem peek_read_agree_witness :
    (⟨"(".toList, none⟩ : TokenizerState).peekTok =
        .ok (((TokenType.OPEN_PARENTHESIS, none) : Token),
          (⟨"(".toList, some (((TokenType.OPEN_PARENTHESIS, none) : Token), [])⟩ :
            TokenizerState)) ∧
      ((⟨"(".toList, some (((TokenType.OPEN_PARENTHESIS, none) : Token), [])⟩ :
            TokenizerState).peekTok =
          .ok (((TokenType.OPEN_PARENTHESIS, none) : Token),
            (⟨"(".toList, some (((TokenType.OPEN_PARENTHESIS, none) : Token), [])⟩ :
              TokenizerState)) ∧
        (⟨"(".toList, some (((TokenType.OPEN_PARENTHESIS, none) : Token), [])⟩ :
            TokenizerState).readTok =
          (⟨"(".toList, none⟩ : TokenizerState).readTok ∧
        ∃ u, (⟨"(".toList, none⟩ : TokenizerState).readTok =
          .ok (((TokenType.OPEN_PARENTHESIS, none) : Token), u)) :=
  ⟨rfl, peek_read_agree _ _ _ rfl⟩

end lisp_reader
